import Mathlib

/-!
# Schneider iEM3000 DATETIME decoder (`iem_datetime.h`)

A shallow embedding of `parse_schneider_datetime_hex` and of the three local
lambdas it uses (`hex2nib`, `hex2byte`, `word_at`), followed by theorems about
them.

Modelling conventions.

* A `std::string` is a Lean `String`; the function walks over its characters
  (`String.data`).  A character outside ASCII corresponds to several C++ bytes
  which are all `>= 0x80`; none of them is a hexadecimal digit, so all of them
  are dropped by the filter loop exactly as the single Lean character is.
* `int` values are `Int`; `uint8_t` and `uint16_t` values are `Nat` reduced
  modulo `2^8` and `2^16` where the C++ code converts to these types.
* Reading `bytes[i]` past the end of the vector is undefined behaviour; it is
  modelled by `none`, so the function returns `Option String` and `some r`
  means that the call returns the string `r`.
-/

namespace IemDatetime

/-- The C library predicate `std::isxdigit` (digits `0-9`, letters `A-F` and
`a-f`). -/
def isxdigit (c : Char) : Bool :=
  (decide ('0'.toNat ≤ c.toNat) && decide (c.toNat ≤ '9'.toNat)) ||
  (decide ('A'.toNat ≤ c.toNat) && decide (c.toNat ≤ 'F'.toNat)) ||
  (decide ('a'.toNat ≤ c.toNat) && decide (c.toNat ≤ 'f'.toNat))

/-- The lambda `hex2nib`: value of one hexadecimal digit, `-1` otherwise. -/
def hex2nib (x : Char) : Int :=
  if '0'.toNat ≤ x.toNat ∧ x.toNat ≤ '9'.toNat then (x.toNat : Int) - ('0'.toNat : Int)
  else if 'A'.toNat ≤ x.toNat ∧ x.toNat ≤ 'F'.toNat then (x.toNat : Int) - ('A'.toNat : Int) + 10
  else if 'a'.toNat ≤ x.toNat ∧ x.toNat ≤ 'f'.toNat then (x.toNat : Int) - ('a'.toNat : Int) + 10
  else -1

/-- The lambda `hex2byte`: `(hi << 4) | lo`, or `-1` when a nibble is bad. -/
def hex2byte (h l : Char) : Int :=
  let hi := hex2nib h
  let lo := hex2nib l
  if hi < 0 ∨ lo < 0 then -1
  else Int.lor (hi <<< (4 : Int)) lo

/-- The filter loop: keep only the hexadecimal characters, in order. -/
def keep_hex : List Char → List Char
  | [] => []
  | c :: cs => if isxdigit c then c :: keep_hex cs else keep_hex cs

/-- The conversion loop `for (i = 0; i + 1 < hex.size(); i += 2)`: two
characters give one byte; `none` is the early `return "unknown"` taken when
`hex2byte` is negative.  A last unpaired character is not read. -/
def to_bytes : List Char → Option (List Nat)
  | h :: l :: rest =>
    let b := hex2byte h l
    if b < 0 then none
    else
      match to_bytes rest with
      | none => none
      | some bytes => some (b.toNat % 256 :: bytes)
  | _ => some []

/-- The lambda `word_at`: big-endian 16-bit word number `idx` of `bytes`;
`none` when an index is outside the vector. -/
def word_at (bytes : List Nat) (idx : Nat) : Option Nat :=
  match bytes[idx * 2]?, bytes[idx * 2 + 1]? with
  | some b0, some b1 => some ((((b0 % 65536) <<< 8) ||| (b1 % 65536)) % 65536)
  | _, _ => none

/-- The conversion `%0Wd` of `printf` for an `int` argument: decimal digits,
padded with zeros on the left up to `width` characters, sign included. -/
def fmt_d (width : Nat) (v : Int) : List Char :=
  let digits := Nat.toDigits 10 v.natAbs
  if v < 0 then '-' :: (List.replicate (width - 1 - digits.length) '0' ++ digits)
  else List.replicate (width - digits.length) '0' ++ digits

/-- The call `std::snprintf(out, sizeof(out), "%04d-%02d-%02d %02d:%02d", ...)`
with `sizeof(out) = 24`: at most 23 characters are stored. -/
def snprintf_datetime (year month day hour minute : Int) : List Char :=
  (fmt_d 4 year ++ '-' :: fmt_d 2 month ++ '-' :: fmt_d 2 day ++ ' ' :: fmt_d 2 hour
    ++ ':' :: fmt_d 2 minute).take 23

/-- `year = 2000 + (w_year & 0x7F)`. -/
def year_of (w_year : Nat) : Int := 2000 + ((w_year &&& 0x7F : Nat) : Int)

/-- `month = (w_mowd >> 8) & 0x0F`. -/
def month_of (w_mowd : Nat) : Int := (((w_mowd >>> 8) &&& 0x0F : Nat) : Int)

/-- `day = w_mowd & 0x1F`. -/
def day_of (w_mowd : Nat) : Int := ((w_mowd &&& 0x1F : Nat) : Int)

/-- `hour = (w_hm >> 8) & 0x1F`. -/
def hour_of (w_hm : Nat) : Int := (((w_hm >>> 8) &&& 0x1F : Nat) : Int)

/-- `minute = w_hm & 0x3F`. -/
def minute_of (w_hm : Nat) : Int := ((w_hm &&& 0x3F : Nat) : Int)

/-- The function `parse_schneider_datetime_hex`. -/
def parse_schneider_datetime_hex (hex_in : String) : Option String :=
  if hex_in.data = [] then some "unknown"
  else
    let hex := keep_hex hex_in.data
    if hex.length < 16 then some "unknown"
    else
      match to_bytes hex with
      | none => some "unknown"
      | some bytes =>
        if bytes.length < 8 then some "unknown"
        else
          match word_at bytes 0, word_at bytes 1, word_at bytes 2 with
          | some w_year, some w_mowd, some w_hm =>
            let year := year_of w_year
            let month := month_of w_mowd
            let day := day_of w_mowd
            let hour := hour_of w_hm
            let minute := minute_of w_hm
            if month < 1 ∨ month > 12 ∨ day < 1 ∨ day > 31 ∨
                hour < 0 ∨ hour > 23 ∨ minute < 0 ∨ minute > 59 then some "unknown"
            else some (String.mk (snprintf_datetime year month day hour minute))
          | _, _, _ => none

/-- Value of the local variable `year` when execution reaches its definition,
for the input `hex_in` (`none` when an earlier `return` or a bad index is hit). -/
def year_field (hex_in : String) : Option Int :=
  if hex_in.data = [] then none
  else
    let hex := keep_hex hex_in.data
    if hex.length < 16 then none
    else
      match to_bytes hex with
      | none => none
      | some bytes =>
        if bytes.length < 8 then none
        else (word_at bytes 0).map year_of

/-- Values of the local variables `year`, `month`, `day`, `hour`, `minute` when
execution reaches the sanity check, for the input `hex_in` (`none` when an
earlier `return` or a bad index is hit). -/
def decoded_fields (hex_in : String) : Option (Int × Int × Int × Int × Int) :=
  if hex_in.data = [] then none
  else
    let hex := keep_hex hex_in.data
    if hex.length < 16 then none
    else
      match to_bytes hex with
      | none => none
      | some bytes =>
        if bytes.length < 8 then none
        else
          match word_at bytes 0, word_at bytes 1, word_at bytes 2 with
          | some w_year, some w_mowd, some w_hm =>
            some (year_of w_year, month_of w_mowd, day_of w_mowd, hour_of w_hm,
              minute_of w_hm)
          | _, _, _ => none

/-! ## Vocabulary of the specification -/

/-- The map `v` of the specification: `'0'..'9'` to `0..9`, `'A'..'F'` and
`'a'..'f'` to `10..15` (any other character is given `0`). -/
def hexVal : Char → Nat
  | '0' => 0 | '1' => 1 | '2' => 2 | '3' => 3 | '4' => 4
  | '5' => 5 | '6' => 6 | '7' => 7 | '8' => 8 | '9' => 9
  | 'A' => 10 | 'B' => 11 | 'C' => 12 | 'D' => 13 | 'E' => 14 | 'F' => 15
  | 'a' => 10 | 'b' => 11 | 'c' => 12 | 'd' => 13 | 'e' => 14 | 'f' => 15
  | _ => 0

/-- The filtered hex-digit sequence of an input, as digit values. -/
def hex_digits (s : String) : List Nat := (s.data.filter isxdigit).map hexVal

/-- The 16-bit word number `k` of a digit sequence: four digits, the first one
the most significant. -/
def spec_word (d : List Nat) (k : Nat) : Nat :=
  4096 * d.getD (4 * k) 0 + 256 * d.getD (4 * k + 1) 0 + 16 * d.getD (4 * k + 2) 0
    + d.getD (4 * k + 3) 0

/-- Hexadecimal digit of a value below 16, upper case when `upper` is set. -/
def hexDigit (upper : Bool) (n : Nat) : Char :=
  if n < 10 then Char.ofNat (48 + n)
  else if upper then Char.ofNat (55 + n) else Char.ofNat (87 + n)

/-- Hex encoding of a byte sequence, two digits per byte, high nibble first;
`upper k` chooses the case of the digit at position `k`. -/
def hexEncodeFrom (upper : Nat → Bool) (k : Nat) : List Nat → List Char
  | [] => []
  | b :: bs =>
    hexDigit (upper k) (b / 16) :: hexDigit (upper (k + 1)) (b % 16)
      :: hexEncodeFrom upper (k + 2) bs

/-- Hex encoding of a byte sequence. -/
def hexEncode (upper : Nat → Bool) (bs : List Nat) : String :=
  String.mk (hexEncodeFrom upper 0 bs)

/-- Decimal digit character of a value below 10. -/
def decDigit (n : Nat) : Char := Char.ofNat (48 + n)

/-- Zero-padded two-digit decimal rendering. -/
def dec2 (n : Nat) : List Char := [decDigit (n / 10 % 10), decDigit (n % 10)]

/-- Zero-padded four-digit decimal rendering. -/
def dec4 (n : Nat) : List Char :=
  [decDigit (n / 1000 % 10), decDigit (n / 100 % 10), decDigit (n / 10 % 10), decDigit (n % 10)]

/-- The text `YYYY-MM-DD HH:MM` for the given field values. -/
def datetime_text (year month day hour minute : Nat) : String :=
  String.mk (dec4 year ++ '-' :: dec2 month ++ '-' :: dec2 day ++ ' ' :: dec2 hour
    ++ ':' :: dec2 minute)

/-- Shape `DDDD-DD-DD DD:DD`: sixteen characters, decimal digits except for
`-` at positions 4 and 7, a space at position 10 and `:` at position 13. -/
def is_datetime_shape (r : String) : Bool :=
  match r.data with
  | [y0, y1, y2, y3, s4, m0, m1, s7, d0, d1, s10, h0, h1, s13, n0, n1] =>
    y0.isDigit && y1.isDigit && y2.isDigit && y3.isDigit && s4 == '-' &&
    m0.isDigit && m1.isDigit && s7 == '-' && d0.isDigit && d1.isDigit && s10 == ' ' &&
    h0.isDigit && h1.isDigit && s13 == ':' && n0.isDigit && n1.isDigit
  | _ => false

/-- Bytes denoted by a digit string, pair by pair. -/
def pair_bytes : List Char → List Nat
  | h :: l :: rest => (16 * hexVal h + hexVal l) :: pair_bytes rest
  | _ => []

/-- The result of the function expressed with the three words that are used. -/
def result_of_words (w0 w1 w2 : Nat) : String :=
  if 1 ≤ w1 / 256 % 16 ∧ w1 / 256 % 16 ≤ 12 ∧ 1 ≤ w1 % 32 ∧ w2 / 256 % 32 ≤ 23 ∧ w2 % 64 ≤ 59
  then datetime_text (2000 + w0 % 128) (w1 / 256 % 16) (w1 % 32) (w2 / 256 % 32) (w2 % 64)
  else "unknown"

/-- The input `"0x"p0 " 0x"p1 ...`: every two-character pair of the text is
prefixed with `0x`, and the pairs are separated by one space. -/
def with_0x_from (first : Bool) : List Char → List Char
  | a :: b :: rest =>
    (if first then [] else [' ']) ++ '0' :: 'x' :: a :: b :: with_0x_from false rest
  | _ => []

/-- The digits `"0"p0 "0"p1 ...`: every two-character pair prefixed with `0`. -/
def with_0 : List Char → List Char
  | a :: b :: rest => '0' :: a :: b :: with_0 rest
  | _ => []

/-- The same letter in the other case, for an ASCII letter; any other
character is left as it is. -/
def swap_case (c : Char) : Char :=
  if 'a'.toNat ≤ c.toNat ∧ c.toNat ≤ 'z'.toNat then Char.ofNat (c.toNat - 32)
  else if 'A'.toNat ≤ c.toNat ∧ c.toNat ≤ 'Z'.toNat then Char.ofNat (c.toNat + 32)
  else c

/-- The text `ds` is the text `cs` in which some of the ASCII letters are
replaced by the same letter in the other case. -/
def case_variant : List Char → List Char → Bool
  | [], [] => true
  | c :: cs, d :: ds => (d == c || d == swap_case c) && case_variant cs ds
  | _, _ => false

/-- The field values that pass the sanity check; the year is in the range that
`2000 + (w_year & 0x7F)` takes. -/
def valid_fields (year month day hour minute : Int) : Prop :=
  2000 ≤ year ∧ year ≤ 2127 ∧ 1 ≤ month ∧ month ≤ 12 ∧ 1 ≤ day ∧ day ≤ 31 ∧
    0 ≤ hour ∧ hour ≤ 23 ∧ 0 ≤ minute ∧ minute ≤ 59

/-! ## Characters and nibbles -/

theorem isxdigit_lt (c : Char) (h : isxdigit c = true) : c.toNat < 128 := by
  simp only [isxdigit, Bool.or_eq_true, Bool.and_eq_true, decide_eq_true_eq] at h
  have e1 : '9'.toNat = 57 := rfl
  have e2 : 'F'.toNat = 70 := rfl
  have e3 : 'f'.toNat = 102 := rfl
  omega

theorem hex2nib_ofNat :
    ∀ n < 128, isxdigit (Char.ofNat n) = true →
      hex2nib (Char.ofNat n) = (hexVal (Char.ofNat n) : Int) ∧ hexVal (Char.ofNat n) < 16 := by
  decide

theorem hex2nib_of_isxdigit (c : Char) (h : isxdigit c = true) :
    hex2nib c = (hexVal c : Int) ∧ hexVal c < 16 := by
  have := hex2nib_ofNat c.toNat (isxdigit_lt c h)
  rw [Char.ofNat_toNat] at this
  exact this h

theorem hex2nib_neg_iff (c : Char) : hex2nib c = -1 ↔ isxdigit c = false := by
  have e0 : '0'.toNat = 48 := rfl
  have e1 : '9'.toNat = 57 := rfl
  have e2 : 'F'.toNat = 70 := rfl
  have e3 : 'f'.toNat = 102 := rfl
  have e4 : 'A'.toNat = 65 := rfl
  have e5 : 'a'.toNat = 97 := rfl
  unfold hex2nib isxdigit
  rw [e0, e1, e2, e3, e4, e5]
  constructor
  · intro h
    split_ifs at h with h1 h2 h3
    · omega
    · omega
    · omega
    · simp only [Bool.or_eq_false_iff, Bool.and_eq_false_iff, decide_eq_false_iff_not]
      omega
  · intro h
    simp only [Bool.or_eq_false_iff, Bool.and_eq_false_iff, decide_eq_false_iff_not] at h
    split_ifs with h1 h2 h3
    · omega
    · omega
    · omega
    · rfl

theorem lor_shift_nibbles :
    ∀ a : Nat, a < 16 → ∀ b : Nat, b < 16 →
      Int.lor ((a : Int) <<< (4 : Int)) (b : Int) = ((16 * a + b : Nat) : Int) := by
  decide

theorem hex2byte_of_isxdigit (h l : Char) (hh : isxdigit h = true) (hl : isxdigit l = true) :
    hex2byte h l = ((16 * hexVal h + hexVal l : Nat) : Int) := by
  obtain ⟨e1, b1⟩ := hex2nib_of_isxdigit h hh
  obtain ⟨e2, b2⟩ := hex2nib_of_isxdigit l hl
  unfold hex2byte
  simp only [e1, e2]
  rw [if_neg (by omega)]
  exact lor_shift_nibbles _ b1 _ b2

/-! ## The two loops -/

theorem keep_hex_eq_filter (cs : List Char) : keep_hex cs = cs.filter isxdigit := by
  induction cs with
  | nil => rfl
  | cons c cs ih =>
    by_cases h : isxdigit c = true
    · simp [keep_hex, h, ih]
    · simp [keep_hex, h, ih]

theorem keep_hex_all (cs : List Char) : ∀ c ∈ keep_hex cs, isxdigit c = true := by
  intro c hc
  rw [keep_hex_eq_filter] at hc
  exact (List.mem_filter.mp hc).2

theorem keep_hex_of_all (cs : List Char) (h : ∀ c ∈ cs, isxdigit c = true) :
    keep_hex cs = cs := by
  rw [keep_hex_eq_filter]
  exact List.filter_eq_self.mpr h

theorem keep_hex_idem (cs : List Char) : keep_hex (keep_hex cs) = keep_hex cs :=
  keep_hex_of_all _ (keep_hex_all cs)

theorem to_bytes_of_all : ∀ (hex : List Char), (∀ c ∈ hex, isxdigit c = true) →
    to_bytes hex = some (pair_bytes hex)
  | [], _ => rfl
  | [_], _ => rfl
  | h :: l :: rest, hall => by
    have hh : isxdigit h = true := hall h (by simp)
    have hl : isxdigit l = true := hall l (by simp)
    have ih := to_bytes_of_all rest (fun c hc => hall c (by simp [hc]))
    have b1 := (hex2nib_of_isxdigit h hh).2
    have b2 := (hex2nib_of_isxdigit l hl).2
    simp only [to_bytes, pair_bytes, hex2byte_of_isxdigit h l hh hl, ih]
    rw [if_neg (by omega)]
    congr 2
    simp only [Int.toNat_ofNat]
    omega

theorem pair_bytes_length : ∀ (hex : List Char), (pair_bytes hex).length = hex.length / 2
  | [] => rfl
  | [_] => by simp [pair_bytes]
  | _ :: _ :: rest => by
    simp only [pair_bytes, List.length_cons, pair_bytes_length rest]
    omega

theorem pair_bytes_get : ∀ (i : Nat) (hex : List Char), 2 * i + 1 < hex.length →
    (pair_bytes hex)[i]? =
      some (16 * hexVal (hex.getD (2 * i) '0') + hexVal (hex.getD (2 * i + 1) '0'))
  | _, [], h => by simp at h
  | _, [_], h => by simp at h
  | 0, a :: b :: rest, _ => by simp [pair_bytes]
  | i + 1, a :: b :: rest, h => by
    have h2 : 2 * i + 1 < rest.length := by simp at h; omega
    have ih := pair_bytes_get i rest h2
    have e1 : 2 * (i + 1) = (2 * i) + 1 + 1 := by ring
    have e2 : 2 * (i + 1) + 1 = (2 * i + 1) + 1 + 1 := by ring
    simp only [pair_bytes, List.getElem?_cons_succ, ih, e1, e2, List.getD_cons_succ]

theorem pair_bytes_lt (hex : List Char) (hall : ∀ c ∈ hex, isxdigit c = true) :
    ∀ b ∈ pair_bytes hex, b < 256 := by
  induction hex using pair_bytes.induct with
  | case1 h l rest ih =>
    intro b hb
    simp only [pair_bytes, List.mem_cons] at hb
    have b1 := (hex2nib_of_isxdigit h (hall h (by simp))).2
    have b2 := (hex2nib_of_isxdigit l (hall l (by simp))).2
    rcases hb with rfl | hb
    · omega
    · exact ih (fun c hc => hall c (by simp [hc])) b hb
  | case2 t ht =>
    intro b hb
    match t, ht with
    | [], _ => simp [pair_bytes] at hb
    | [_], _ => simp [pair_bytes] at hb
    | a :: b :: r, ht => exact absurd rfl (ht a b r)

/-! ## Words and bit fields -/

theorem word_value (b0 b1 : Nat) (h0 : b0 < 256) (h1 : b1 < 256) :
    (((b0 % 65536) <<< 8) ||| (b1 % 65536)) % 65536 = 256 * b0 + b1 := by
  have e := Nat.mul_add_lt_is_or (show b1 < 2 ^ 8 by omega) b0
  rw [Nat.mod_eq_of_lt (by omega : b0 < 65536), Nat.mod_eq_of_lt (by omega : b1 < 65536),
    Nat.shiftLeft_eq, Nat.mul_comm b0 (2 ^ 8), ← e]
  omega

theorem and_7F (w : Nat) : w &&& 0x7F = w % 128 := Nat.and_pow_two_sub_one_eq_mod w 7
theorem and_0F (w : Nat) : w &&& 0x0F = w % 16 := Nat.and_pow_two_sub_one_eq_mod w 4
theorem and_1F (w : Nat) : w &&& 0x1F = w % 32 := Nat.and_pow_two_sub_one_eq_mod w 5
theorem and_3F (w : Nat) : w &&& 0x3F = w % 64 := Nat.and_pow_two_sub_one_eq_mod w 6

theorem year_of_eq (w : Nat) : year_of w = ((2000 + w % 128 : Nat) : Int) := by
  simp only [year_of, and_7F]; omega

theorem month_of_eq (w : Nat) : month_of w = ((w / 256 % 16 : Nat) : Int) := by
  simp only [month_of, and_0F, Nat.shiftRight_eq_div_pow]

theorem day_of_eq (w : Nat) : day_of w = ((w % 32 : Nat) : Int) := by
  simp only [day_of, and_1F]

theorem hour_of_eq (w : Nat) : hour_of w = ((w / 256 % 32 : Nat) : Int) := by
  simp only [hour_of, and_1F, Nat.shiftRight_eq_div_pow]

theorem minute_of_eq (w : Nat) : minute_of w = ((w % 64 : Nat) : Int) := by
  simp only [minute_of, and_3F]

/-! ## Formatting -/

theorem fmt_d_two : ∀ n < 100, fmt_d 2 ((n : Nat) : Int) = dec2 n := by decide

theorem fmt_d_year : ∀ n < 128, fmt_d 4 (((2000 + n : Nat)) : Int) = dec4 (2000 + n) := by decide

theorem decDigit_isDigit : ∀ n < 10, (decDigit n).isDigit = true := by decide

theorem snprintf_datetime_eq (y m d h n : Nat) (hy : y < 128) (hm : m < 100) (hd : d < 100)
    (hh : h < 100) (hn : n < 100) :
    String.mk (snprintf_datetime ((2000 + y : Nat) : Int) (m : Int) (d : Int) (h : Int) (n : Int))
      = datetime_text (2000 + y) m d h n := by
  simp only [snprintf_datetime, datetime_text, fmt_d_year y hy, fmt_d_two m hm, fmt_d_two d hd,
    fmt_d_two h hh, fmt_d_two n hn, dec4, dec2]
  rfl

theorem hexVal_lt (c : Char) : hexVal c < 16 := by
  unfold hexVal
  split <;> omega

theorem getD_map_hexVal (hex : List Char) (j : Nat) :
    (hex.map hexVal).getD j 0 = hexVal (hex.getD j '0') :=
  List.getD_map (l := hex) (n := j) (d := '0') hexVal

theorem word_at_pair_bytes (hex : List Char) (k : Nat) (h : 4 * k + 3 < hex.length) :
    word_at (pair_bytes hex) k = some (spec_word (hex.map hexVal) k) := by
  have g0 := pair_bytes_get (k * 2) hex (by omega)
  have g1 := pair_bytes_get (k * 2 + 1) hex (by omega)
  have e0 : 2 * (k * 2) = 4 * k := by ring
  have e2 : 2 * (k * 2 + 1) = 4 * k + 2 := by ring
  rw [e0] at g0
  rw [e2, show 4 * k + 2 + 1 = 4 * k + 3 from rfl] at g1
  have b0 := hexVal_lt (hex.getD (4 * k) '0')
  have b1 := hexVal_lt (hex.getD (4 * k + 1) '0')
  have b2 := hexVal_lt (hex.getD (4 * k + 2) '0')
  have b3 := hexVal_lt (hex.getD (4 * k + 3) '0')
  simp only [word_at, g0, g1, spec_word, getD_map_hexVal]
  rw [word_value _ _ (by omega) (by omega)]
  congr 1
  omega

theorem parse_of_long (s : String) (h16 : 16 ≤ (keep_hex s.data).length) :
    parse_schneider_datetime_hex s =
      some (result_of_words (spec_word ((keep_hex s.data).map hexVal) 0)
        (spec_word ((keep_hex s.data).map hexVal) 1)
        (spec_word ((keep_hex s.data).map hexVal) 2)) := by
  have hne : s.data ≠ [] := by
    intro h
    rw [h] at h16
    simp [keep_hex] at h16
  have hb := to_bytes_of_all _ (keep_hex_all s.data)
  have hl := pair_bytes_length (keep_hex s.data)
  have w0 := word_at_pair_bytes (keep_hex s.data) 0 (by omega)
  have w1 := word_at_pair_bytes (keep_hex s.data) 1 (by omega)
  have w2 := word_at_pair_bytes (keep_hex s.data) 2 (by omega)
  unfold parse_schneider_datetime_hex
  rw [if_neg hne]
  simp only [hb]
  rw [if_neg (by omega), if_neg (by omega)]
  simp only [w0, w1, w2, year_of_eq, month_of_eq, day_of_eq, hour_of_eq, minute_of_eq,
    result_of_words]
  generalize spec_word ((keep_hex s.data).map hexVal) 0 = a
  generalize spec_word ((keep_hex s.data).map hexVal) 1 = b
  generalize spec_word ((keep_hex s.data).map hexVal) 2 = c
  by_cases hv : 1 ≤ b / 256 % 16 ∧ b / 256 % 16 ≤ 12 ∧ 1 ≤ b % 32 ∧ c / 256 % 32 ≤ 23 ∧
      c % 64 ≤ 59
  · rw [if_neg (by omega), if_pos hv]
    rw [snprintf_datetime_eq _ _ _ _ _ (by omega) (by omega) (by omega) (by omega) (by omega)]
  · rw [if_pos (by omega), if_neg hv]

theorem parse_of_short (s : String) (h : (keep_hex s.data).length < 16) :
    parse_schneider_datetime_hex s = some "unknown" := by
  unfold parse_schneider_datetime_hex
  by_cases hne : s.data = []
  · rw [if_pos hne]
  · rw [if_neg hne]
    simp only [h, if_true]

theorem hexDigit_spec :
    ∀ u : Bool, ∀ n : Nat, n < 16 →
      isxdigit (hexDigit u n) = true ∧ hexVal (hexDigit u n) = n := by
  decide

theorem is_datetime_shape_text (y m d h n : Nat) :
    is_datetime_shape (datetime_text y m d h n) = true := by
  have k : ∀ x : Nat, (decDigit (x % 10)).isDigit = true :=
    fun x => decDigit_isDigit _ (Nat.mod_lt _ (by decide))
  simp [is_datetime_shape, datetime_text, dec4, dec2, k]

theorem datetime_text_ne_unknown (y m d h n : Nat) : datetime_text y m d h n ≠ "unknown" := by
  intro e
  have k := is_datetime_shape_text y m d h n
  rw [e] at k
  exact absurd k (by decide)

theorem parse_congr (s t : String) (h : keep_hex s.data = keep_hex t.data) :
    parse_schneider_datetime_hex s = parse_schneider_datetime_hex t := by
  by_cases hs : (keep_hex s.data).length < 16
  · rw [parse_of_short s hs, parse_of_short t (h ▸ hs)]
  · rw [parse_of_long s (by omega), parse_of_long t (by rw [← h]; omega), h]

theorem getD_of_take_eq {α : Type} (l l' : List α) (n j : Nat) (d : α)
    (h : l.take n = l'.take n) (hj : j < n) : l.getD j d = l'.getD j d := by
  have e : (l.take n)[j]? = (l'.take n)[j]? := by rw [h]
  rw [List.getElem?_take_of_lt hj, List.getElem?_take_of_lt hj] at e
  simp only [List.getD_eq_getElem?_getD, e]

theorem spec_word_of_take_eq (d d' : List Nat) (k : Nat) (h : d.take 12 = d'.take 12)
    (hk : k ≤ 2) : spec_word d k = spec_word d' k := by
  unfold spec_word
  rw [getD_of_take_eq d d' 12 (4 * k) 0 h (by omega),
    getD_of_take_eq d d' 12 (4 * k + 1) 0 h (by omega),
    getD_of_take_eq d d' 12 (4 * k + 2) 0 h (by omega),
    getD_of_take_eq d d' 12 (4 * k + 3) 0 h (by omega)]

theorem keep_hex_with_0x : ∀ (first : Bool) (h : List Char),
    keep_hex (with_0x_from first h) = keep_hex (with_0 h)
  | _, [] => rfl
  | _, [_] => rfl
  | first, a :: b :: rest => by
    have ih := keep_hex_with_0x false rest
    have e0 : isxdigit '0' = true := by decide
    have ex : isxdigit 'x' = false := by decide
    have es : isxdigit ' ' = false := by decide
    cases first <;> by_cases ha : isxdigit a = true <;> by_cases hb : isxdigit b = true <;>
      simp [with_0x_from, with_0, keep_hex, e0, ex, es, ha, hb, ih]

/-! ## Bounds of the byte vector -/

theorem word_at_isSome (bytes : List Nat) (k : Nat) (h : k * 2 + 1 < bytes.length) :
    (word_at bytes k).isSome = true := by
  have h0 : k * 2 < bytes.length := by omega
  simp [word_at, List.getElem?_eq_getElem h0, List.getElem?_eq_getElem h]

theorem parse_hexEncode8 (upper : Nat → Bool) (b0 b1 b2 b3 b4 b5 b6 b7 : Nat)
    (hb : ∀ x ∈ [b0, b1, b2, b3, b4, b5, b6, b7], x < 256) :
    parse_schneider_datetime_hex (hexEncode upper [b0, b1, b2, b3, b4, b5, b6, b7]) =
      some (result_of_words (256 * b0 + b1) (256 * b2 + b3) (256 * b4 + b5)) := by
  have hd : ∀ (u : Bool) (b : Nat), b ∈ [b0, b1, b2, b3, b4, b5, b6, b7] →
      (isxdigit (hexDigit u (b / 16)) = true ∧ hexVal (hexDigit u (b / 16)) = b / 16) ∧
      (isxdigit (hexDigit u (b % 16)) = true ∧ hexVal (hexDigit u (b % 16)) = b % 16) :=
    fun u b hm =>
      ⟨hexDigit_spec u _ (by have := hb b hm; omega), hexDigit_spec u _ (by omega)⟩
  have hall : ∀ c ∈ (hexEncode upper [b0, b1, b2, b3, b4, b5, b6, b7]).data,
      isxdigit c = true := by
    intro c hc
    simp only [hexEncode, hexEncodeFrom, List.mem_cons, List.mem_singleton, List.not_mem_nil,
      or_false] at hc
    rcases hc with h | h | h | h | h | h | h | h | h | h | h | h | h | h | h | h <;> subst h
    · exact (hd _ b0 (by simp)).1.1
    · exact (hd _ b0 (by simp)).2.1
    · exact (hd _ b1 (by simp)).1.1
    · exact (hd _ b1 (by simp)).2.1
    · exact (hd _ b2 (by simp)).1.1
    · exact (hd _ b2 (by simp)).2.1
    · exact (hd _ b3 (by simp)).1.1
    · exact (hd _ b3 (by simp)).2.1
    · exact (hd _ b4 (by simp)).1.1
    · exact (hd _ b4 (by simp)).2.1
    · exact (hd _ b5 (by simp)).1.1
    · exact (hd _ b5 (by simp)).2.1
    · exact (hd _ b6 (by simp)).1.1
    · exact (hd _ b6 (by simp)).2.1
    · exact (hd _ b7 (by simp)).1.1
    · exact (hd _ b7 (by simp)).2.1
  have hk := keep_hex_of_all _ hall
  have hlen : (hexEncode upper [b0, b1, b2, b3, b4, b5, b6, b7]).data.length = 16 := rfl
  rw [parse_of_long _ (by rw [hk, hlen]), hk]
  have w0 : spec_word ((hexEncode upper [b0, b1, b2, b3, b4, b5, b6, b7]).data.map hexVal) 0
      = 256 * b0 + b1 := by
    simp [hexEncode, hexEncodeFrom, spec_word, (hd _ b0 (by simp)).1.2,
      (hd _ b0 (by simp)).2.2, (hd _ b1 (by simp)).1.2, (hd _ b1 (by simp)).2.2]
    omega
  have w1 : spec_word ((hexEncode upper [b0, b1, b2, b3, b4, b5, b6, b7]).data.map hexVal) 1
      = 256 * b2 + b3 := by
    simp [hexEncode, hexEncodeFrom, spec_word, (hd _ b2 (by simp)).1.2,
      (hd _ b2 (by simp)).2.2, (hd _ b3 (by simp)).1.2, (hd _ b3 (by simp)).2.2]
    omega
  have w2 : spec_word ((hexEncode upper [b0, b1, b2, b3, b4, b5, b6, b7]).data.map hexVal) 2
      = 256 * b4 + b5 := by
    simp [hexEncode, hexEncodeFrom, spec_word, (hd _ b4 (by simp)).1.2,
      (hd _ b4 (by simp)).2.2, (hd _ b5 (by simp)).1.2, (hd _ b5 (by simp)).2.2]
    omega
  rw [w0, w1, w2]

/-! ## Letter case -/

theorem swap_case_ofNat :
    ∀ n < 128, isxdigit (swap_case (Char.ofNat n)) = isxdigit (Char.ofNat n) ∧
      hexVal (swap_case (Char.ofNat n)) = hexVal (Char.ofNat n) := by
  decide

theorem swap_case_of_ge (c : Char) (h : 128 ≤ c.toNat) : swap_case c = c := by
  have e1 : 'z'.toNat = 122 := rfl
  have e2 : 'Z'.toNat = 90 := rfl
  unfold swap_case
  rw [if_neg (by omega), if_neg (by omega)]

theorem swap_case_spec (c : Char) :
    isxdigit (swap_case c) = isxdigit c ∧ hexVal (swap_case c) = hexVal c := by
  by_cases h : c.toNat < 128
  · have k := swap_case_ofNat c.toNat h
    rw [Char.ofNat_toNat] at k
    exact k
  · rw [swap_case_of_ge c (by omega)]
    exact ⟨rfl, rfl⟩

theorem keep_hex_case_variant : ∀ (cs ds : List Char), case_variant cs ds = true →
    (keep_hex cs).map hexVal = (keep_hex ds).map hexVal
  | [], [], _ => rfl
  | [], _ :: _, h => by simp [case_variant] at h
  | _ :: _, [], h => by simp [case_variant] at h
  | c :: cs, d :: ds, h => by
    simp only [case_variant, Bool.and_eq_true, Bool.or_eq_true, beq_iff_eq] at h
    have ih := keep_hex_case_variant cs ds h.2
    have hx : isxdigit d = isxdigit c ∧ hexVal d = hexVal c := by
      rcases h.1 with e | e
      · rw [e]
        exact ⟨rfl, rfl⟩
      · rw [e]
        exact swap_case_spec c
    by_cases hc : isxdigit c = true
    · simp [keep_hex, hx.1, hx.2, hc, ih]
    · simp [keep_hex, hx.1, hc, ih]

theorem parse_congr_values (s t : String)
    (h : (keep_hex s.data).map hexVal = (keep_hex t.data).map hexVal) :
    parse_schneider_datetime_hex s = parse_schneider_datetime_hex t := by
  have hl : (keep_hex s.data).length = (keep_hex t.data).length := by
    have := congrArg List.length h
    simpa using this
  by_cases hs : (keep_hex s.data).length < 16
  · rw [parse_of_short s hs, parse_of_short t (hl ▸ hs)]
  · rw [parse_of_long s (by omega), parse_of_long t (by omega), h]

/-! ## The rendering is injective -/

theorem decDigit_inj : ∀ a < 10, ∀ b < 10, decDigit a = decDigit b → a = b := by decide

theorem dec2_inj (m n : Nat) (hm : m < 100) (hn : n < 100) (h : dec2 m = dec2 n) : m = n := by
  simp only [dec2, List.cons.injEq, and_true] at h
  have a := decDigit_inj _ (Nat.mod_lt (m / 10) (by decide)) _ (Nat.mod_lt (n / 10) (by decide)) h.1
  have b := decDigit_inj _ (Nat.mod_lt m (by decide)) _ (Nat.mod_lt n (by decide)) h.2
  omega

theorem dec4_inj (m n : Nat) (hm : m < 10000) (hn : n < 10000) (h : dec4 m = dec4 n) :
    m = n := by
  simp only [dec4, List.cons.injEq, and_true] at h
  have a := decDigit_inj _ (Nat.mod_lt (m / 1000) (by decide)) _
    (Nat.mod_lt (n / 1000) (by decide)) h.1
  have b := decDigit_inj _ (Nat.mod_lt (m / 100) (by decide)) _
    (Nat.mod_lt (n / 100) (by decide)) h.2.1
  have c := decDigit_inj _ (Nat.mod_lt (m / 10) (by decide)) _
    (Nat.mod_lt (n / 10) (by decide)) h.2.2.1
  have d := decDigit_inj _ (Nat.mod_lt m (by decide)) _ (Nat.mod_lt n (by decide)) h.2.2.2
  omega

theorem datetime_text_inj (y m d h n y2 m2 d2 h2 n2 : Nat)
    (by1 : y < 10000) (bm1 : m < 100) (bd1 : d < 100) (bh1 : h < 100) (bn1 : n < 100)
    (by2 : y2 < 10000) (bm2 : m2 < 100) (bd2 : d2 < 100) (bh2 : h2 < 100) (bn2 : n2 < 100)
    (e : datetime_text y m d h n = datetime_text y2 m2 d2 h2 n2) :
    y = y2 ∧ m = m2 ∧ d = d2 ∧ h = h2 ∧ n = n2 := by
  have e2 := congrArg String.data e
  simp only [datetime_text, dec4, dec2, List.cons_append, List.nil_append, List.cons.injEq,
    and_true] at e2
  obtain ⟨a1, a2, a3, a4, -, a5, a6, -, a7, a8, -, a9, a10, -, a11, a12⟩ := e2
  refine ⟨dec4_inj y y2 by1 by2 ?_, dec2_inj m m2 bm1 bm2 ?_, dec2_inj d d2 bd1 bd2 ?_,
    dec2_inj h h2 bh1 bh2 ?_, dec2_inj n n2 bn1 bn2 ?_⟩
  · simp only [dec4, a1, a2, a3, a4]
  · simp only [dec2, a5, a6]
  · simp only [dec2, a7, a8]
  · simp only [dec2, a9, a10]
  · simp only [dec2, a11, a12]

theorem decoded_fields_of_long (s : String) (h16 : 16 ≤ (keep_hex s.data).length) :
    decoded_fields s =
      some (year_of (spec_word ((keep_hex s.data).map hexVal) 0),
        month_of (spec_word ((keep_hex s.data).map hexVal) 1),
        day_of (spec_word ((keep_hex s.data).map hexVal) 1),
        hour_of (spec_word ((keep_hex s.data).map hexVal) 2),
        minute_of (spec_word ((keep_hex s.data).map hexVal) 2)) := by
  have hne : s.data ≠ [] := by
    intro h
    rw [h] at h16
    simp [keep_hex] at h16
  have hb := to_bytes_of_all _ (keep_hex_all s.data)
  have hl := pair_bytes_length (keep_hex s.data)
  have w0 := word_at_pair_bytes (keep_hex s.data) 0 (by omega)
  have w1 := word_at_pair_bytes (keep_hex s.data) 1 (by omega)
  have w2 := word_at_pair_bytes (keep_hex s.data) 2 (by omega)
  unfold decoded_fields
  rw [if_neg hne]
  simp only [hb]
  rw [if_neg (by omega), if_neg (by omega)]
  simp only [w0, w1, w2]

/-! ## The claims -/

/-- C1: for 8 bytes `b0..b7` whose decoded month, day, hour and minute are in
range, the function applied to their 16-digit hex encoding (either case for each
digit) returns the text `YYYY-MM-DD HH:MM` of the decoded fields, with
`year = 2000 + (w0 mod 128)`; and `"17000B0F0C1E0000"` returns
`"2000-11-15 12:30"`. -/
theorem parse_hexEncode_valid (upper : Nat → Bool) (b0 b1 b2 b3 b4 b5 b6 b7 : Nat)
    (h0 : b0 < 256) (h1 : b1 < 256) (h2 : b2 < 256) (h3 : b3 < 256)
    (h4 : b4 < 256) (h5 : b5 < 256) (h6 : b6 < 256) (h7 : b7 < 256)
    (hmonth : 1 ≤ (256 * b2 + b3) / 256 % 16 ∧ (256 * b2 + b3) / 256 % 16 ≤ 12)
    (hday : 1 ≤ (256 * b2 + b3) % 32 ∧ (256 * b2 + b3) % 32 ≤ 31)
    (hhour : (256 * b4 + b5) / 256 % 32 ≤ 23)
    (hminute : (256 * b4 + b5) % 64 ≤ 59) :
    parse_schneider_datetime_hex (hexEncode upper [b0, b1, b2, b3, b4, b5, b6, b7]) =
        some (datetime_text (2000 + (256 * b0 + b1) % 128) ((256 * b2 + b3) / 256 % 16)
          ((256 * b2 + b3) % 32) ((256 * b4 + b5) / 256 % 32) ((256 * b4 + b5) % 64))
      ∧ parse_schneider_datetime_hex "17000B0F0C1E0000" = some "2000-11-15 12:30" := by
  refine ⟨?_, by decide⟩
  have hd : ∀ (u : Bool) (b : Nat), b < 256 →
      (isxdigit (hexDigit u (b / 16)) = true ∧ hexVal (hexDigit u (b / 16)) = b / 16) ∧
      (isxdigit (hexDigit u (b % 16)) = true ∧ hexVal (hexDigit u (b % 16)) = b % 16) :=
    fun u b hb => ⟨hexDigit_spec u _ (by omega), hexDigit_spec u _ (by omega)⟩
  have hall : ∀ c ∈ (hexEncode upper [b0, b1, b2, b3, b4, b5, b6, b7]).data,
      isxdigit c = true := by
    intro c hc
    simp only [hexEncode, hexEncodeFrom, List.mem_cons, List.mem_singleton, List.not_mem_nil,
      or_false] at hc
    rcases hc with h | h | h | h | h | h | h | h | h | h | h | h | h | h | h | h <;> subst h
    · exact (hd _ b0 h0).1.1
    · exact (hd _ b0 h0).2.1
    · exact (hd _ b1 h1).1.1
    · exact (hd _ b1 h1).2.1
    · exact (hd _ b2 h2).1.1
    · exact (hd _ b2 h2).2.1
    · exact (hd _ b3 h3).1.1
    · exact (hd _ b3 h3).2.1
    · exact (hd _ b4 h4).1.1
    · exact (hd _ b4 h4).2.1
    · exact (hd _ b5 h5).1.1
    · exact (hd _ b5 h5).2.1
    · exact (hd _ b6 h6).1.1
    · exact (hd _ b6 h6).2.1
    · exact (hd _ b7 h7).1.1
    · exact (hd _ b7 h7).2.1
  have hk := keep_hex_of_all _ hall
  have hlen : (hexEncode upper [b0, b1, b2, b3, b4, b5, b6, b7]).data.length = 16 := rfl
  rw [parse_of_long _ (by rw [hk, hlen]), hk]
  have w0 : spec_word ((hexEncode upper [b0, b1, b2, b3, b4, b5, b6, b7]).data.map hexVal) 0
      = 256 * b0 + b1 := by
    simp [hexEncode, hexEncodeFrom, spec_word, (hd _ b0 h0).1.2, (hd _ b0 h0).2.2, (hd _ b1 h1).1.2,
      (hd _ b1 h1).2.2]
    omega
  have w1 : spec_word ((hexEncode upper [b0, b1, b2, b3, b4, b5, b6, b7]).data.map hexVal) 1
      = 256 * b2 + b3 := by
    simp [hexEncode, hexEncodeFrom, spec_word, (hd _ b2 h2).1.2, (hd _ b2 h2).2.2, (hd _ b3 h3).1.2,
      (hd _ b3 h3).2.2]
    omega
  have w2 : spec_word ((hexEncode upper [b0, b1, b2, b3, b4, b5, b6, b7]).data.map hexVal) 2
      = 256 * b4 + b5 := by
    simp [hexEncode, hexEncodeFrom, spec_word, (hd _ b4 h4).1.2, (hd _ b4 h4).2.2, (hd _ b5 h5).1.2,
      (hd _ b5 h5).2.2]
    omega
  rw [w0, w1, w2, result_of_words, if_pos ⟨hmonth.1, hmonth.2, hday.1, hhour, hminute⟩]

/-- C1, at the bytes `17 00 0B 0F 0C 1E 00 00` written in upper case. -/
theorem parse_hexEncode_valid_witness :
    parse_schneider_datetime_hex
        (hexEncode (fun _ => true) [0x17, 0x00, 0x0B, 0x0F, 0x0C, 0x1E, 0x00, 0x00]) =
      some (datetime_text 2000 11 15 12 30) :=
  (parse_hexEncode_valid (fun _ => true) 0x17 0x00 0x0B 0x0F 0x0C 0x1E 0x00 0x00
    (by decide) (by decide) (by decide) (by decide) (by decide) (by decide) (by decide)
    (by decide) (by decide) (by decide) (by decide) (by decide)).1

/-- C2: for every input the function returns either `"unknown"` or a string of
exactly 16 characters of the shape `DDDD-DD-DD DD:DD`. -/
theorem parse_unknown_or_shape (s : String) :
    parse_schneider_datetime_hex s = some "unknown" ∨
      ∃ r, parse_schneider_datetime_hex s = some r ∧ is_datetime_shape r = true := by
  by_cases hs : (keep_hex s.data).length < 16
  · exact Or.inl (parse_of_short s hs)
  · rw [parse_of_long s (by omega)]
    unfold result_of_words
    split_ifs
    · exact Or.inr ⟨_, rfl, is_datetime_shape_text _ _ _ _ _⟩
    · exact Or.inl rfl

/-- C3: when the filtered hex-digit sequence has at least 16 digits the function
returns a string, and that string is `"unknown"` exactly when month (bits 11..8
of word 1) is outside 1..12, or day (bits 4..0 of word 1) outside 1..31, or hour
(bits 12..8 of word 2) above 23, or minute (bits 5..0 of word 2) above 59.
Month 2 with day 31 decodes, and month 13 gives `"unknown"`. -/
theorem parse_unknown_iff_out_of_range (s : String) (h16 : 16 ≤ (hex_digits s).length) :
    ((∃ r, parse_schneider_datetime_hex s = some r) ∧
      (parse_schneider_datetime_hex s = some "unknown" ↔
        (¬ (1 ≤ spec_word (hex_digits s) 1 / 256 % 16 ∧
            spec_word (hex_digits s) 1 / 256 % 16 ≤ 12) ∨
          ¬ (1 ≤ spec_word (hex_digits s) 1 % 32 ∧ spec_word (hex_digits s) 1 % 32 ≤ 31) ∨
          23 < spec_word (hex_digits s) 2 / 256 % 32 ∨
          59 < spec_word (hex_digits s) 2 % 64)))
      ∧ parse_schneider_datetime_hex "0000021F00000000" = some "2000-02-31 00:00"
      ∧ parse_schneider_datetime_hex "00000D0100000000" = some "unknown" := by
  refine ⟨?_, by decide, by decide⟩
  have e : hex_digits s = (keep_hex s.data).map hexVal := by
    rw [hex_digits, keep_hex_eq_filter]
  have hl : 16 ≤ (keep_hex s.data).length := by
    rw [e, List.length_map] at h16
    exact h16
  rw [parse_of_long s hl, ← e]
  refine ⟨⟨_, rfl⟩, ?_⟩
  unfold result_of_words
  split_ifs with hv
  · constructor
    · intro h
      exact absurd (Option.some.inj h) (datetime_text_ne_unknown _ _ _ _ _)
    · intro h
      omega
  · constructor
    · intro _
      omega
    · intro _
      rfl

/-- C3, at an input whose word 1 is `0x0D01` (month 13). -/
theorem parse_unknown_iff_out_of_range_witness :
    parse_schneider_datetime_hex "17000D010C1E0000" = some "unknown" ↔
      (¬ (1 ≤ spec_word (hex_digits "17000D010C1E0000") 1 / 256 % 16 ∧
          spec_word (hex_digits "17000D010C1E0000") 1 / 256 % 16 ≤ 12) ∨
        ¬ (1 ≤ spec_word (hex_digits "17000D010C1E0000") 1 % 32 ∧
          spec_word (hex_digits "17000D010C1E0000") 1 % 32 ≤ 31) ∨
        23 < spec_word (hex_digits "17000D010C1E0000") 2 / 256 % 32 ∨
        59 < spec_word (hex_digits "17000D010C1E0000") 2 % 64) :=
  (parse_unknown_iff_out_of_range "17000D010C1E0000" (by decide)).1.2

/-- C4: an input with fewer than 16 hexadecimal digit characters in total gives
`"unknown"`. -/
theorem parse_few_digits (s : String) (h : (s.data.filter isxdigit).length < 16) :
    parse_schneider_datetime_hex s = some "unknown" :=
  parse_of_short s (by rw [keep_hex_eq_filter]; exact h)

/-- C4, at the empty string and at `"1234"`. -/
theorem parse_few_digits_witness :
    parse_schneider_datetime_hex "" = some "unknown" ∧
      parse_schneider_datetime_hex "1234" = some "unknown" :=
  ⟨parse_few_digits "" (by decide), parse_few_digits "1234" (by decide)⟩

/-- C5: the result for `s` is the result for `s` with every character that is
not a hexadecimal digit removed; so two inputs with the same subsequence of hex
digits give the same result. -/
theorem parse_filter_invariant (s t : String)
    (h : s.data.filter isxdigit = t.data.filter isxdigit) :
    parse_schneider_datetime_hex s =
        parse_schneider_datetime_hex (String.mk (s.data.filter isxdigit)) ∧
      parse_schneider_datetime_hex s = parse_schneider_datetime_hex t := by
  constructor
  · apply parse_congr
    rw [← keep_hex_eq_filter, keep_hex_idem]
  · apply parse_congr
    rw [keep_hex_eq_filter, keep_hex_eq_filter, h]

/-- C5, at an input with spaces and punctuation between the digits. -/
theorem parse_filter_invariant_witness :
    parse_schneider_datetime_hex "17 00-0B:0F, 0C1E (0000)" =
        parse_schneider_datetime_hex
          (String.mk ("17 00-0B:0F, 0C1E (0000)".data.filter isxdigit)) ∧
      parse_schneider_datetime_hex "17 00-0B:0F, 0C1E (0000)" =
        parse_schneider_datetime_hex "17000B0F0C1E0000" :=
  parse_filter_invariant "17 00-0B:0F, 0C1E (0000)" "17000B0F0C1E0000" (by decide)

/-- C6 fails on the code: the `0` of every `0x` prefix is itself a hexadecimal
digit and is kept by the filter, so `"0x17 0x00 0x0B 0x0F 0x0C 0x1E 0x00 0x00"`
gives `"unknown"` while `"17000B0F0C1E0000"` gives `"2000-11-15 12:30"`. -/
theorem parse_with_0x_differs :
    String.mk (with_0x_from true "17000B0F0C1E0000".data) =
        "0x17 0x00 0x0B 0x0F 0x0C 0x1E 0x00 0x00" ∧
      parse_schneider_datetime_hex "0x17 0x00 0x0B 0x0F 0x0C 0x1E 0x00 0x00" = some "unknown" ∧
      parse_schneider_datetime_hex "17000B0F0C1E0000" = some "2000-11-15 12:30" := by
  decide

/-- C6, amended: the input with a `0x` prefix before every pair and spaces
between the pairs gives the result of the digits `"0"p0 "0"p1 ...`, in which
only the `x` characters and the spaces are removed. -/
theorem parse_with_0x (h : List Char) :
    parse_schneider_datetime_hex (String.mk (with_0x_from true h)) =
      parse_schneider_datetime_hex (String.mk (with_0 h)) :=
  parse_congr _ _ (keep_hex_with_0x true h)

/-- C7: two inputs whose filtered hex-digit sequences have at least 16 digits
each and agree on their first 12 digits give the same result. -/
theorem parse_ignores_word3 (s t : String)
    (hs : 16 ≤ (s.data.filter isxdigit).length) (ht : 16 ≤ (t.data.filter isxdigit).length)
    (h : (s.data.filter isxdigit).take 12 = (t.data.filter isxdigit).take 12) :
    parse_schneider_datetime_hex s = parse_schneider_datetime_hex t := by
  rw [← keep_hex_eq_filter] at hs
  rw [← keep_hex_eq_filter] at ht
  rw [← keep_hex_eq_filter, ← keep_hex_eq_filter] at h
  have hm : ((keep_hex s.data).map hexVal).take 12 = ((keep_hex t.data).map hexVal).take 12 := by
    rw [← List.map_take, ← List.map_take, h]
  rw [parse_of_long s hs, parse_of_long t ht,
    spec_word_of_take_eq _ _ 0 hm (by omega), spec_word_of_take_eq _ _ 1 hm (by omega),
    spec_word_of_take_eq _ _ 2 hm (by omega)]

/-- C7, at two inputs that differ in word 3, in further digits and in a last
unpaired digit. -/
theorem parse_ignores_word3_witness :
    parse_schneider_datetime_hex "17000B0F0C1E0000" =
      parse_schneider_datetime_hex "17000B0F0C1EFFFF9A7" :=
  parse_ignores_word3 "17000B0F0C1E0000" "17000B0F0C1EFFFF9A7" (by decide) (by decide)
    (by decide)

/-- C8 on the code: word 0 equal to `0x007F` with a valid month, day, hour and
minute is printed with the year 2127, outside 2000..2099. -/
theorem parse_year_2127 :
    parse_schneider_datetime_hex "007F010100000000" = some "2127-01-01 00:00" ∧
      year_field "007F010100000000" = some 2127 := by
  decide

/-- C9 fails on the code: the year field of `"17270A0000000000"` is not 2023. -/
theorem year_field_example_ne_2023 : year_field "17270A0000000000" ≠ some 2023 := by
  decide

/-- C9, amended: for `"17270A0000000000"` the bytes start with `0x17, 0x27`,
word 0 is `0x1727`, and the year field is 2039, that is 2000 plus the low 7 bits
`0x27 & 0x7F = 39` of byte 1. -/
theorem year_field_example :
    year_field "17270A0000000000" = some 2039 ∧
      to_bytes (keep_hex "17270A0000000000".data) =
        some [0x17, 0x27, 0x0A, 0x00, 0x00, 0x00, 0x00, 0x00] ∧
      word_at [0x17, 0x27, 0x0A, 0x00, 0x00, 0x00, 0x00, 0x00] 0 = some 0x1727 ∧
      year_of 0x1727 = 2000 + ((0x27 &&& 0x7F : Nat) : Int) ∧
      ((0x27 &&& 0x7F : Nat) : Int) = 39 := by
  decide

/-- C10: for characters `h`, `l` that pass the hex-digit filter, `hex2byte h l`
is not `-1` and equals `16 * v h + v l`, a value in 0..255; `hex2nib` returns
`-1` exactly for the characters that are not hex digits; and the conversion loop
never takes its error branch on a filtered sequence. -/
theorem hex2byte_of_filtered (h l : Char) (hh : isxdigit h = true) (hl : isxdigit l = true) :
    hex2byte h l ≠ -1 ∧ hex2byte h l = 16 * (hexVal h : Int) + (hexVal l : Int) ∧
      0 ≤ hex2byte h l ∧ hex2byte h l ≤ 255 ∧
      (∀ c : Char, hex2nib c = -1 ↔ isxdigit c = false) ∧
      (∀ s : String, to_bytes (keep_hex s.data) ≠ none) := by
  have e := hex2byte_of_isxdigit h l hh hl
  have b1 := (hex2nib_of_isxdigit h hh).2
  have b2 := (hex2nib_of_isxdigit l hl).2
  refine ⟨by omega, by omega, by omega, by omega, hex2nib_neg_iff, ?_⟩
  intro s
  rw [to_bytes_of_all _ (keep_hex_all s.data)]
  exact Option.some_ne_none _

/-- C10, at the pair `B`, `f`. -/
theorem hex2byte_of_filtered_witness : hex2byte 'B' 'f' = 16 * 11 + 15 :=
  (hex2byte_of_filtered 'B' 'f' (by decide) (by decide)).2.1

/-- C11: when the filtered hex sequence has `n >= 16` digits the conversion
loop ends with exactly `n / 2 >= 8` bytes, so the test `bytes.size() < 8` is
false, the byte indices 0..5 are inside the vector, and `word_at` is defined
for the words 0, 1 and 2. -/
theorem to_bytes_length_and_bounds (s : String) (h16 : 16 ≤ (keep_hex s.data).length) :
    ∃ bytes, to_bytes (keep_hex s.data) = some bytes ∧
      bytes.length = (keep_hex s.data).length / 2 ∧ 8 ≤ bytes.length ∧
      ¬ bytes.length < 8 ∧ (∀ i, i ≤ 5 → i < bytes.length) ∧
      ∀ k, k ≤ 2 → k * 2 < bytes.length ∧ k * 2 + 1 < bytes.length ∧
        (word_at bytes k).isSome = true := by
  have hl := pair_bytes_length (keep_hex s.data)
  refine ⟨pair_bytes (keep_hex s.data), to_bytes_of_all _ (keep_hex_all s.data), hl,
    by omega, by omega, fun i hi => by omega, fun k hk => ⟨by omega, by omega, ?_⟩⟩
  exact word_at_isSome _ k (by omega)

/-- C11, at an input with 19 hex digits (9 bytes and one unpaired digit). -/
theorem to_bytes_length_and_bounds_witness :
    ∃ bytes, to_bytes (keep_hex "17000B0F0C1EFFFF9A7".data) = some bytes ∧
      bytes.length = (keep_hex "17000B0F0C1EFFFF9A7".data).length / 2 ∧ 8 ≤ bytes.length ∧
      ¬ bytes.length < 8 ∧ (∀ i, i ≤ 5 → i < bytes.length) ∧
      ∀ k, k ≤ 2 → k * 2 < bytes.length ∧ k * 2 + 1 < bytes.length ∧
        (word_at bytes k).isSome = true :=
  to_bytes_length_and_bounds "17000B0F0C1EFFFF9A7" (by decide)

/-- C12: two 8-byte sequences `b` and `c` with the same `b1 mod 128`,
`b2 mod 16`, `b3 mod 32`, `b4 mod 32` and `b5 mod 64` have hex encodings (in any
letter case) that give the same result. -/
theorem parse_depends_on_fields (upper upper2 : Nat → Bool)
    (b0 b1 b2 b3 b4 b5 b6 b7 c0 c1 c2 c3 c4 c5 c6 c7 : Nat)
    (hb : ∀ x ∈ [b0, b1, b2, b3, b4, b5, b6, b7], x < 256)
    (hc : ∀ x ∈ [c0, c1, c2, c3, c4, c5, c6, c7], x < 256)
    (hyear : b1 % 128 = c1 % 128) (hmonth : b2 % 16 = c2 % 16) (hday : b3 % 32 = c3 % 32)
    (hhour : b4 % 32 = c4 % 32) (hminute : b5 % 64 = c5 % 64) :
    parse_schneider_datetime_hex (hexEncode upper [b0, b1, b2, b3, b4, b5, b6, b7]) =
      parse_schneider_datetime_hex (hexEncode upper2 [c0, c1, c2, c3, c4, c5, c6, c7]) := by
  have e1 : (256 * b0 + b1) % 128 = (256 * c0 + c1) % 128 := by omega
  have e2 : (256 * b2 + b3) / 256 % 16 = (256 * c2 + c3) / 256 % 16 := by
    have := hb b3 (by simp)
    have := hc c3 (by simp)
    omega
  have e3 : (256 * b2 + b3) % 32 = (256 * c2 + c3) % 32 := by omega
  have e4 : (256 * b4 + b5) / 256 % 32 = (256 * c4 + c5) / 256 % 32 := by
    have := hb b5 (by simp)
    have := hc c5 (by simp)
    omega
  have e5 : (256 * b4 + b5) % 64 = (256 * c4 + c5) % 64 := by omega
  rw [parse_hexEncode8 upper _ _ _ _ _ _ _ _ hb, parse_hexEncode8 upper2 _ _ _ _ _ _ _ _ hc]
  simp only [result_of_words, e1, e2, e3, e4, e5]

/-- C12, at two byte sequences that differ in byte 0, in bit 7 of byte 1, in
the bits 15..12 and 7..5 of word 1, in the bits 15..13 and 7..6 of word 2 and
in word 3. -/
theorem parse_depends_on_fields_witness :
    parse_schneider_datetime_hex
        (hexEncode (fun _ => true) [0x17, 0x00, 0x0B, 0x0F, 0x0C, 0x1E, 0x00, 0x00]) =
      parse_schneider_datetime_hex
        (hexEncode (fun _ => false) [0xFF, 0x80, 0xFB, 0xEF, 0xEC, 0xDE, 0x12, 0x34]) :=
  parse_depends_on_fields (fun _ => true) (fun _ => false)
    0x17 0x00 0x0B 0x0F 0x0C 0x1E 0x00 0x00 0xFF 0x80 0xFB 0xEF 0xEC 0xDE 0x12 0x34
    (by decide) (by decide) (by decide) (by decide) (by decide) (by decide) (by decide)

/-- C13: replacing any ASCII letters of the input by the same letter in the
other case leaves the result unchanged; `"17000b0f0c1e0000"` and
`"17000B0F0C1E0000"` give the same output. -/
theorem parse_case_insensitive (s t : String) (h : case_variant s.data t.data = true) :
    parse_schneider_datetime_hex s = parse_schneider_datetime_hex t ∧
      parse_schneider_datetime_hex "17000b0f0c1e0000" =
        parse_schneider_datetime_hex "17000B0F0C1E0000" :=
  ⟨parse_congr_values s t (keep_hex_case_variant _ _ h), by decide⟩

/-- C13, at an input with letters in mixed case, hex digits or not. -/
theorem parse_case_insensitive_witness :
    parse_schneider_datetime_hex "17 00 0b 0F 0c 1E 00 00 utc" =
      parse_schneider_datetime_hex "17 00 0B 0f 0C 1e 00 00 UtC" :=
  (parse_case_insensitive "17 00 0b 0F 0c 1E 00 00 utc" "17 00 0B 0f 0C 1e 00 00 UtC"
    (by decide)).1

/-- C14: two inputs that return the same string, other than `"unknown"`, have
the same decoded (year, month, day, hour, minute); and two tuples of field
values that pass the sanity check and are printed as the same string are
equal. -/
theorem parse_injective_on_fields (s t : String) (r : String)
    (hs : parse_schneider_datetime_hex s = some r)
    (ht : parse_schneider_datetime_hex t = some r) (hr : r ≠ "unknown") :
    (∃ f, decoded_fields s = some f ∧ decoded_fields t = some f) ∧
      (∀ y m d h n y2 m2 d2 h2 n2 : Int, valid_fields y m d h n → valid_fields y2 m2 d2 h2 n2 →
        snprintf_datetime y m d h n = snprintf_datetime y2 m2 d2 h2 n2 →
        (y, m, d, h, n) = (y2, m2, d2, h2, n2)) := by
  constructor
  · have ls : 16 ≤ (keep_hex s.data).length := by
      by_contra hc
      rw [parse_of_short s (by omega)] at hs
      exact hr (Option.some.inj hs).symm
    have lt : 16 ≤ (keep_hex t.data).length := by
      by_contra hc
      rw [parse_of_short t (by omega)] at ht
      exact hr (Option.some.inj ht).symm
    rw [parse_of_long s ls] at hs
    rw [parse_of_long t lt] at ht
    rw [decoded_fields_of_long s ls, decoded_fields_of_long t lt]
    simp only [year_of_eq, month_of_eq, day_of_eq, hour_of_eq, minute_of_eq]
    generalize spec_word ((keep_hex s.data).map hexVal) 0 = a0 at hs ⊢
    generalize spec_word ((keep_hex s.data).map hexVal) 1 = a1 at hs ⊢
    generalize spec_word ((keep_hex s.data).map hexVal) 2 = a2 at hs ⊢
    generalize spec_word ((keep_hex t.data).map hexVal) 0 = c0 at ht ⊢
    generalize spec_word ((keep_hex t.data).map hexVal) 1 = c1 at ht ⊢
    generalize spec_word ((keep_hex t.data).map hexVal) 2 = c2 at ht ⊢
    have hs2 := Option.some.inj hs
    have ht2 := Option.some.inj ht
    unfold result_of_words at hs2 ht2
    split_ifs at hs2 with v1
    · split_ifs at ht2 with v2
      · have e := datetime_text_inj _ _ _ _ _ _ _ _ _ _ (by omega) (by omega) (by omega)
          (by omega) (by omega) (by omega) (by omega) (by omega) (by omega) (by omega)
          (hs2.trans ht2.symm)
        obtain ⟨e1, e2, e3, e4, e5⟩ := e
        refine ⟨_, rfl, ?_⟩
        rw [e1, e2, e3, e4, e5]
      · exact absurd ht2.symm hr
    · exact absurd hs2.symm hr
  · intro y m d h n y2 m2 d2 h2 n2 v1 v2 e
    unfold valid_fields at v1 v2
    obtain ⟨y, rfl⟩ : ∃ k : Nat, y = ((2000 + k : Nat) : Int) := ⟨(y - 2000).toNat, by omega⟩
    obtain ⟨m, rfl⟩ : ∃ k : Nat, m = (k : Int) := ⟨m.toNat, by omega⟩
    obtain ⟨d, rfl⟩ : ∃ k : Nat, d = (k : Int) := ⟨d.toNat, by omega⟩
    obtain ⟨h, rfl⟩ : ∃ k : Nat, h = (k : Int) := ⟨h.toNat, by omega⟩
    obtain ⟨n, rfl⟩ : ∃ k : Nat, n = (k : Int) := ⟨n.toNat, by omega⟩
    obtain ⟨y2, rfl⟩ : ∃ k : Nat, y2 = ((2000 + k : Nat) : Int) := ⟨(y2 - 2000).toNat, by omega⟩
    obtain ⟨m2, rfl⟩ : ∃ k : Nat, m2 = (k : Int) := ⟨m2.toNat, by omega⟩
    obtain ⟨d2, rfl⟩ : ∃ k : Nat, d2 = (k : Int) := ⟨d2.toNat, by omega⟩
    obtain ⟨h2, rfl⟩ : ∃ k : Nat, h2 = (k : Int) := ⟨h2.toNat, by omega⟩
    obtain ⟨n2, rfl⟩ : ∃ k : Nat, n2 = (k : Int) := ⟨n2.toNat, by omega⟩
    have e2 := congrArg String.mk e
    rw [snprintf_datetime_eq y m d h n (by omega) (by omega) (by omega) (by omega) (by omega),
      snprintf_datetime_eq y2 m2 d2 h2 n2 (by omega) (by omega) (by omega) (by omega)
        (by omega)] at e2
    obtain ⟨e1, e3, e4, e5, e6⟩ := datetime_text_inj _ _ _ _ _ _ _ _ _ _ (by omega) (by omega)
      (by omega) (by omega) (by omega) (by omega) (by omega) (by omega) (by omega) (by omega) e2
    have e1b : y = y2 := by omega
    rw [e1b, e3, e4, e5, e6]

/-- C14, at two inputs that differ in unused bits and both return
`"2000-11-15 12:30"`. -/
theorem parse_injective_on_fields_witness :
    ∃ f, decoded_fields "17000B0F0C1E0000" = some f ∧
      decoded_fields "aa80 fbef ecde ffff" = some f :=
  (parse_injective_on_fields "17000B0F0C1E0000" "aa80 fbef ecde ffff" "2000-11-15 12:30"
    (by decide) (by decide) (by decide)).1

end IemDatetime
